import Mathlib

/-!
# Verification of the embedded RFB (VNC) client of `src/gui/vnc_viewer_frame.py`

This file is a shallow embedding of the protocol core of the VNC viewer
of the repository (`VNCViewerFrame`): the byte transport (`_recv_exact`), the
VNC-authentication key derivation (`_encrypt_password`, `_reverse_bits`),
security-type selection (`_authenticate`), the pixel decoder
(`_handle_framebuffer_update`, `_handle_raw_rectangle_optimized`,
`_create_image_from_32bit_optimized`, `_handle_copyrect`,
`_create_image_generic` / `_read_pixel`), and the update-request budget
(`_request_framebuffer_update` / `_handle_framebuffer_update` bookkeeping,
`_adjust_performance_settings`).

Python byte strings are modelled as `List Nat` (each element a byte value),
Python `int` sizes as `Int` (they can be negative), wall-clock instants and
float-valued intervals as `ℚ`, and fallible socket reads as
`Except String`.  PIL images are modelled as a width/height pair together
with a row-major list of RGB triples; `Image.paste` and `Image.crop` are
modelled with the documented PIL clipping semantics (paste writes only the
part of the source that lands inside the destination; crop fills the part
of the box outside the image with black).
-/

namespace VncViewer

/-- A byte (0..255). Arithmetic stays in `Nat`; the decoders below only ever
produce values < 256 from values < 256. -/
abbrev Byte := Nat

/-- An RGB pixel as produced by the decoder (`(r, g, b)` tuple in the source). -/
abbrev Rgb := Nat × Nat × Nat

/-! ## Byte transport: `_recv_exact` (vnc_viewer_frame.py lines 984-1024)

Source behaviour: a size of at most 0 returns the empty byte string at
once; a size above 50000000 raises ValueError before any read; otherwise
a chunked recv loop accumulates exactly `size` bytes, raising
ConnectionError if the peer closes first.

The socket is modelled as the list of bytes still to arrive; a read that
needs more bytes than the stream holds is the ConnectionError branch
(the peer closed). The chunked loop is observationally `take`/`drop`. -/
def recv_exact (size : Int) (s : List Byte) : Except String (List Byte × List Byte) :=
  if size ≤ 0 then .ok ([], s)
  else if 50000000 < size then .error "Requested size too large"
  else if s.length < size.toNat then .error "Connection closed"
  else .ok (s.take size.toNat, s.drop size.toNat)

end VncViewer

namespace VncViewer

/-- C7: for every requested size above 100 MiB (= 104857600 bytes),
`_recv_exact` fails before looking at the stream: the guard `size > 50000000`
fires (50 MB < 100 MiB), and the error is raised before any `recv` call, so
the result is the same for every stream content and no bytes are consumed. -/
theorem recv_exact_oversize_rejected (size : Int) (s : List Byte)
    (h : (104857600 : Int) < size) :
    recv_exact size s = .error "Requested size too large" := by
  have h0 : ¬ size ≤ 0 := by omega
  have h1 : (50000000 : Int) < size := by omega
  simp [recv_exact, h0, h1]

/-- Witness for C7: the bound is strict at 100 MiB + 1 on an arbitrary stream. -/
theorem recv_exact_oversize_rejected_witness :
    (104857600 : Int) < 104857601 ∧
      recv_exact 104857601 [7, 7, 7] = .error "Requested size too large" :=
  ⟨by norm_num, recv_exact_oversize_rejected 104857601 [7, 7, 7] (by norm_num)⟩

/-- C10: for every size ≤ 0 the read returns the empty byte string at once,
leaving the stream untouched and raising no error. -/
theorem recv_exact_nonpositive (size : Int) (s : List Byte) (h : size ≤ 0) :
    recv_exact size s = .ok ([], s) := by
  simp [recv_exact, h]

/-- Witness for C10: size `-3` on a nonempty stream. -/
theorem recv_exact_nonpositive_witness :
    (-3 : Int) ≤ 0 ∧ recv_exact (-3) [1, 2, 3] = .ok ([], [1, 2, 3]) :=
  ⟨by norm_num, recv_exact_nonpositive (-3) [1, 2, 3] (by norm_num)⟩

end VncViewer

namespace VncViewer

/-! ## VNC authentication key derivation
(`_encrypt_password`, `_reverse_bits`, vnc_viewer_frame.py lines 697-755)

Source (DES branch, the one used when pycryptodome is installed):
the password is truncated to 8 characters, left-justified to 8 characters
with NUL characters, encoded as UTF-8, truncated to 8 bytes, left-justified
to 8 bytes with NUL bytes, truncated to 8 bytes again; then the bit order
of every byte is reversed and the result keys a DES-ECB encryption of the
16-byte challenge.

The DES block cipher itself lives in the external pycryptodome library, not
in this repository, so it is taken as an abstract parameter
`desBlock : key → block → block`; ECB mode applies it to each 8-byte block
of the input, which is what `cipher.encrypt` does on the 16-byte challenge. -/

/-- `_reverse_bits` (line 753-755): reversal of the 8 binary digits of a byte.
The source formats the byte as 8 binary digits, reverses the digit string and
parses it back, which for a byte value is exactly this bit permutation. -/
def reverse_bits (b : Byte) : Byte :=
  (List.range 8).foldl (fun acc i => acc + (((b >>> i) &&& 1) <<< (7 - i))) 0

/-- UTF-8 encoding of one Unicode scalar value, as produced by the Python
string method encode with the utf-8 codec. -/
def utf8Char (c : Char) : List Byte :=
  let n := c.toNat
  if n < 128 then [n]
  else if n < 2048 then [192 ||| (n >>> 6), 128 ||| (n &&& 63)]
  else if n < 65536 then
    [224 ||| (n >>> 12), 128 ||| ((n >>> 6) &&& 63), 128 ||| (n &&& 63)]
  else
    [240 ||| (n >>> 18), 128 ||| ((n >>> 12) &&& 63),
     128 ||| ((n >>> 6) &&& 63), 128 ||| (n &&& 63)]

/-- UTF-8 encoding of a whole Python string (modelled as its characters). -/
def utf8Encode (s : List Char) : List Byte :=
  (s.map utf8Char).flatten

/-- Python `str.ljust(width, fill)`: pad on the right up to `width`. -/
def ljust_chars (s : List Char) (width : Nat) (fill : Char) : List Char :=
  s ++ List.replicate (width - s.length) fill

/-- Python `bytes.ljust(width, fill)`: pad on the right up to `width`. -/
def ljust_bytes (s : List Byte) (width : Nat) (fill : Byte) : List Byte :=
  s ++ List.replicate (width - s.length) fill

/-- The DES key `_encrypt_password` derives from the password (lines 701-718):
`password[:8].ljust(8, chr(0)).encode(utf8)[:8]`, then `.ljust(8, byte 0)[:8]`,
then `_reverse_bits` on every byte. -/
def vnc_des_key (password : List Char) : List Byte :=
  let password_bytes := (utf8Encode (ljust_chars (password.take 8) 8 (Char.ofNat 0))).take 8
  let password_bytes2 := (ljust_bytes password_bytes 8 0).take 8
  password_bytes2.map reverse_bits

/-- The key described by the specification words: take up to 8 UTF-8 bytes of
the password, truncating or NUL-padding to exactly 8 bytes, then reverse the
bit order within each byte. Stated separately from `vnc_des_key` so the two
derivations can be compared. -/
def spec_vnc_des_key (password : List Char) : List Byte :=
  let tb := (utf8Encode password).take 8
  (tb ++ List.replicate (8 - tb.length) 0).map reverse_bits

/-- ECB mode over an abstract 8-byte block cipher: encrypt each 8-byte block
in sequence (`cipher.encrypt` of pycryptodome on a 16-byte input). A trailing
fragment shorter than a block would be rejected by the library; the
16-byte challenge never produces one. -/
def des_ecb (desBlock : List Byte → List Byte → List Byte)
    (key : List Byte) : List Byte → List Byte
  | b0 :: b1 :: b2 :: b3 :: b4 :: b5 :: b6 :: b7 :: rest =>
      desBlock key [b0, b1, b2, b3, b4, b5, b6, b7] ++ des_ecb desBlock key rest
  | _ => []

/-- `_encrypt_password` (DES branch): DES-ECB of the challenge under the
derived key. -/
def encrypt_password (desBlock : List Byte → List Byte → List Byte)
    (password : List Char) (challenge : List Byte) : List Byte :=
  des_ecb desBlock (vnc_des_key password) challenge

/-- Every UTF-8 character encoding is nonempty. -/
theorem one_le_length_utf8Char (c : Char) : 1 ≤ (utf8Char c).length := by
  simp only [utf8Char]
  split_ifs <;> simp

/-- UTF-8 encoding distributes over append. -/
theorem utf8Encode_append (s t : List Char) :
    utf8Encode (s ++ t) = utf8Encode s ++ utf8Encode t := by
  simp [utf8Encode]

/-- A string has at least as many UTF-8 bytes as characters. -/
theorem length_le_length_utf8Encode (s : List Char) :
    s.length ≤ (utf8Encode s).length := by
  induction s with
  | nil => simp [utf8Encode]
  | cons c t ih =>
      have h1 := one_le_length_utf8Char c
      simp only [utf8Encode, List.map_cons, List.flatten_cons, List.length_append,
        List.length_cons] at *
      omega

/-- The NUL character encodes to a single zero byte. -/
theorem utf8Char_nul : utf8Char (Char.ofNat 0) = [0] := by decide

/-- A run of NUL characters encodes to a run of zero bytes. -/
theorem utf8Encode_replicate_nul (m : Nat) :
    utf8Encode (List.replicate m (Char.ofNat 0)) = List.replicate m 0 := by
  induction m with
  | zero => simp [utf8Encode]
  | succ k ih =>
      simp only [List.replicate_succ, utf8Encode, List.map_cons,
        List.flatten_cons] at *
      simp [utf8Char_nul, ih]

/-- The byte string the source builds before bit reversal equals the one the
specification describes: first 8 UTF-8 bytes of the password, NUL-padded to
exactly 8 bytes. Truncating to 8 characters first makes no difference because
every character occupies at least one byte. -/
theorem vnc_key_bytes_eq (p : List Char) :
    (ljust_bytes ((utf8Encode (ljust_chars (p.take 8) 8 (Char.ofNat 0))).take 8) 8 0).take 8
      = (utf8Encode p).take 8
        ++ List.replicate (8 - ((utf8Encode p).take 8).length) 0 := by
  have hsplit : utf8Encode (ljust_chars (p.take 8) 8 (Char.ofNat 0))
      = utf8Encode (p.take 8) ++ List.replicate (8 - (p.take 8).length) 0 := by
    simp [ljust_chars, utf8Encode_append, utf8Encode_replicate_nul]
  by_cases h8 : 8 ≤ (utf8Encode (p.take 8)).length
  · -- the first 8 characters already give at least 8 bytes
    have hp : p = p.take 8 ++ p.drop 8 := (List.take_append_drop 8 p).symm
    have hEp : utf8Encode p = utf8Encode (p.take 8) ++ utf8Encode (p.drop 8) := by
      conv_lhs => rw [hp]
      exact utf8Encode_append _ _
    have htake : (utf8Encode p).take 8 = (utf8Encode (p.take 8)).take 8 := by
      rw [hEp, List.take_append_of_le_length h8]
    have hlen : ((utf8Encode (p.take 8)).take 8).length = 8 := by
      simp only [List.length_take]
      omega
    rw [hsplit, List.take_append_of_le_length h8, htake]
    unfold ljust_bytes
    rw [hlen, Nat.sub_self, List.replicate_zero, List.append_nil,
      List.take_of_length_le hlen.le]
  · -- fewer than 8 bytes: the password is shorter than 8 characters
    push_neg at h8
    have hql : (p.take 8).length ≤ (utf8Encode (p.take 8)).length :=
      length_le_length_utf8Encode _
    have hq8 : (p.take 8).length < 8 := lt_of_le_of_lt hql h8
    have hpl : p.length < 8 := by
      have := List.length_take 8 p
      omega
    have hqp : p.take 8 = p := List.take_of_length_le hpl.le
    rw [hqp] at hsplit hql hq8 h8 ⊢
    have hEtake : (utf8Encode p).take 8 = utf8Encode p :=
      List.take_of_length_le h8.le
    have hinner : (utf8Encode (ljust_chars p 8 (Char.ofNat 0))).take 8
        = utf8Encode p ++ List.replicate (8 - (utf8Encode p).length) 0 := by
      rw [hsplit, List.take_append_eq_append_take, hEtake, List.take_replicate]
      congr 2
      omega
    have hinlen : (utf8Encode p
        ++ List.replicate (8 - (utf8Encode p).length) 0).length = 8 := by
      simp only [List.length_append, List.length_replicate]
      omega
    rw [hinner, hEtake]
    unfold ljust_bytes
    rw [hinlen, Nat.sub_self, List.replicate_zero, List.append_nil,
      List.take_of_length_le hinlen.le]

/-- C1: the VNC-authentication DES key is derived exactly as specified: the
first 8 UTF-8 bytes of the password, truncated or NUL-padded to exactly
8 bytes, with the bit order of each byte reversed; the empty password gives
the all-zero key; and the response is the DES-ECB encryption of the 16-byte
challenge under that key (blockwise application of the DES block cipher). -/
theorem encrypt_password_key_derivation
    (desBlock : List Byte → List Byte → List Byte)
    (password : List Char) (challenge : List Byte) :
    encrypt_password desBlock password challenge
        = des_ecb desBlock (spec_vnc_des_key password) challenge
      ∧ vnc_des_key password = spec_vnc_des_key password
      ∧ vnc_des_key [] = List.replicate 8 0 := by
  have hkey : vnc_des_key password = spec_vnc_des_key password := by
    simp only [vnc_des_key, spec_vnc_des_key]
    rw [vnc_key_bytes_eq]
  refine ⟨?_, hkey, by decide⟩
  unfold encrypt_password
  rw [hkey]

end VncViewer

namespace VncViewer

/-! ## Security-type selection (`_authenticate`, vnc_viewer_frame.py lines 530-589)

After reading the offered list, the source picks (lines 549-571):
an explicit user preference first, and otherwise VncAuthentication(2),
then None(1); UltraVNC(17) only when 17 is offered and the preference is
not the automatic one, in which case the 17 branch is skipped and the
selection stays empty.  An empty selection makes `_authenticate` log the
failure and return False. -/

/-- Security-type constant `SECURITY_NONE = 1` (line 32). -/
def SECURITY_NONE : Nat := 1

/-- Security-type constant `SECURITY_VNC = 2` (line 33). -/
def SECURITY_VNC : Nat := 2

/-- The selection logic of `_authenticate` (lines 549-571). `none` is the
`selected_type is None` case, on which `_authenticate` returns False. -/
def select_security_type (auth_preference : String)
    (security_types : List Nat) : Option Nat :=
  if auth_preference = "Без пароля" ∧ SECURITY_NONE ∈ security_types then
    some SECURITY_NONE
  else if auth_preference = "VNC" ∧ SECURITY_VNC ∈ security_types then
    some SECURITY_VNC
  else if SECURITY_VNC ∈ security_types then some SECURITY_VNC
  else if SECURITY_NONE ∈ security_types then some SECURITY_NONE
  else if 17 ∈ security_types then
    if auth_preference = "Авто" then none else some 17
  else none

/-- C6: in automatic mode (preference `Авто`), for every offered list the
client picks VncAuthentication(2) when offered, otherwise None(1) when
offered, never picks UltraVNC MS Logon (17), and selects nothing (so
`_authenticate` fails) when neither supported type is offered. -/
theorem auto_auth_selection (security_types : List Nat) :
    (SECURITY_VNC ∈ security_types →
        select_security_type "Авто" security_types = some SECURITY_VNC)
      ∧ (SECURITY_VNC ∉ security_types → SECURITY_NONE ∈ security_types →
        select_security_type "Авто" security_types = some SECURITY_NONE)
      ∧ select_security_type "Авто" security_types ≠ some 17
      ∧ (SECURITY_VNC ∉ security_types → SECURITY_NONE ∉ security_types →
        select_security_type "Авто" security_types = none) := by
  have hne1 : ¬ (("Авто" : String) = "Без пароля" ∧ SECURITY_NONE ∈ security_types) := by
    rintro ⟨h, -⟩
    exact absurd h (by decide)
  have hne2 : ¬ (("Авто" : String) = "VNC" ∧ SECURITY_VNC ∈ security_types) := by
    rintro ⟨h, -⟩
    exact absurd h (by decide)
  refine ⟨?_, ?_, ?_, ?_⟩
  · intro h2
    unfold select_security_type
    rw [if_neg hne1, if_neg hne2, if_pos h2]
  · intro h2 h1
    unfold select_security_type
    rw [if_neg hne1, if_neg hne2, if_neg h2, if_pos h1]
  · by_cases h2 : SECURITY_VNC ∈ security_types
    · unfold select_security_type
      rw [if_neg hne1, if_neg hne2, if_pos h2]
      simp [SECURITY_VNC]
    · by_cases h1 : SECURITY_NONE ∈ security_types
      · unfold select_security_type
        rw [if_neg hne1, if_neg hne2, if_neg h2, if_pos h1]
        simp [SECURITY_NONE]
      · by_cases h17 : (17 : Nat) ∈ security_types
        · unfold select_security_type
          rw [if_neg hne1, if_neg hne2, if_neg h2, if_neg h1, if_pos h17,
            if_pos rfl]
          simp
        · unfold select_security_type
          rw [if_neg hne1, if_neg hne2, if_neg h2, if_neg h1, if_neg h17]
          simp
  · intro h2 h1
    by_cases h17 : (17 : Nat) ∈ security_types
    · unfold select_security_type
      rw [if_neg hne1, if_neg hne2, if_neg h2, if_neg h1, if_pos h17, if_pos rfl]
    · unfold select_security_type
      rw [if_neg hne1, if_neg hne2, if_neg h2, if_neg h1, if_neg h17]

/-- Witness for C6: with only types 17 and 1 offered the client takes None(1);
with only 17 offered it selects nothing. -/
theorem auto_auth_selection_witness :
    select_security_type "Авто" [17, 1] = some SECURITY_NONE
      ∧ select_security_type "Авто" [17] = none :=
  ⟨(auto_auth_selection [17, 1]).2.1 (by decide) (by decide),
   (auto_auth_selection [17]).2.2.2 (by decide) (by decide)⟩

end VncViewer

namespace VncViewer

/-! ## Quality profiles (`__init__` lines 90-111, `_setup_ui` lines 209-219,
`_adjust_performance_settings` lines 1839-1866)

The quality selector offers the values Среднее, Высокое and Максимум, and
`_setup_ui` sets Среднее as the default.  `_adjust_performance_settings`
rewrites the four interval fields per profile; `max_pending_requests` is set
to 3 in `__init__` and never touched by the profile switch.  Intervals are
in seconds. -/

/-- The throttling fields of `VNCViewerFrame` touched by the quality profile,
with the values assigned in `__init__` (0.033, 0.033, 0.5, 0.1, and
`max_pending_requests = 3`). -/
structure PerfSettings where
  update_request_interval : ℚ
  canvas_update_interval : ℚ
  force_update_interval : ℚ
  continuous_update_interval : ℚ
  max_pending_requests : Int
deriving DecidableEq

/-- Field values set in `__init__` (lines 90-111). -/
def initPerfSettings : PerfSettings :=
  ⟨33/1000, 33/1000, 1/2, 1/10, 3⟩

/-- The default quality profile: `_setup_ui` ends the selector setup with
`quality_menu.set` on the value Среднее (line 219). -/
def default_quality : String := "Среднее"

/-- `_adjust_performance_settings` (lines 1839-1866): the three branches for
Среднее, Высокое and everything else (Максимум). -/
def adjust_performance_settings (quality : String) (st : PerfSettings) :
    PerfSettings :=
  if quality = "Среднее" then
    { st with
      update_request_interval := 1/10
      canvas_update_interval := 33/1000
      force_update_interval := 1
      continuous_update_interval := 1/5 }
  else if quality = "Высокое" then
    { st with
      update_request_interval := 1/20
      canvas_update_interval := 33/1000
      force_update_interval := 1/2
      continuous_update_interval := 3/20 }
  else
    { st with
      update_request_interval := 33/1000
      canvas_update_interval := 33/1000
      force_update_interval := 33/100
      continuous_update_interval := 1/10 }

/-- Counterexample to C9: under the default profile the engine does NOT run
with request_interval 33 ms, max_pending 2, continuous cadence 50 ms and
forced cadence 200 ms (the actual values are 100 ms, 3, 200 ms, 1000 ms). -/
theorem balanced_profile_counterexample :
    ¬ ((adjust_performance_settings default_quality initPerfSettings).update_request_interval = 33/1000
      ∧ (adjust_performance_settings default_quality initPerfSettings).max_pending_requests = 2
      ∧ (adjust_performance_settings default_quality initPerfSettings).continuous_update_interval = 1/20
      ∧ (adjust_performance_settings default_quality initPerfSettings).force_update_interval = 1/5) := by
  rintro ⟨h, -, -, -⟩
  rw [show adjust_performance_settings default_quality initPerfSettings
      = ⟨1/10, 33/1000, 1, 1/5, 3⟩ from rfl] at h
  norm_num at h

/-- C9 amended: under the default profile (Среднее, the middle preset) the
pacing parameters are request_interval = 100 ms (1/10 s), continuous timer
cadence = 200 ms (1/5 s), forced refresh cadence = 1000 ms (1 s), and
max_pending = 3; moreover no quality profile ever changes
`max_pending_requests`. -/
theorem default_profile_settings :
    (adjust_performance_settings default_quality initPerfSettings).update_request_interval = 1/10
      ∧ (adjust_performance_settings default_quality initPerfSettings).continuous_update_interval = 1/5
      ∧ (adjust_performance_settings default_quality initPerfSettings).force_update_interval = 1
      ∧ (adjust_performance_settings default_quality initPerfSettings).max_pending_requests = 3
      ∧ ∀ (quality : String) (st : PerfSettings),
          (adjust_performance_settings quality st).max_pending_requests
            = st.max_pending_requests := by
  refine ⟨rfl, rfl, rfl, rfl, ?_⟩
  intro quality st
  unfold adjust_performance_settings
  split_ifs <;> rfl

end VncViewer

namespace VncViewer

/-! ## Pixel format and 16-bpp decoding
(`_parse_pixel_format` lines 790-803, `_bit_count` lines 1195-1201,
`_create_image_generic` lines 1169-1193, `_read_pixel` lines 1239-1263)

`_create_image_generic` and `_read_pixel` share one 16-bpp formula: the two
bytes are unpacked with the struct format !H — network order, regardless of
the big_endian field of the server PixelFormat — and each channel is
extracted by shifting by the channel shift and masking with
`(1 << bit_count(channel_max)) - 1`, then scaled with
`component * 255 // channel_max`. -/

/-- The server pixel format as parsed by `_parse_pixel_format`. -/
structure PixelFormat where
  bits_per_pixel : Nat
  depth : Nat
  big_endian : Bool
  true_color : Bool
  red_max : Nat
  green_max : Nat
  blue_max : Nat
  red_shift : Nat
  green_shift : Nat
  blue_shift : Nat
deriving DecidableEq

/-- `_bit_count` (lines 1195-1201): number of binary digits, by repeated
halving. -/
def bit_count (n : Nat) : Nat :=
  if n = 0 then 0 else bit_count (n / 2) + 1
termination_by n
decreasing_by
  simp_wf
  omega

/-- The shared 16-bpp pixel formula of `_create_image_generic` and
`_read_pixel`: big-endian word, shift, mask with
`(1 <<< bit_count max) - 1`, scale by `255 / max`. -/
def decode_pixel16 (pf : PixelFormat) (hi lo : Byte) : Rgb :=
  let pixel := hi * 256 + lo
  let r := (pixel >>> pf.red_shift) &&& ((1 <<< bit_count pf.red_max) - 1)
  let g := (pixel >>> pf.green_shift) &&& ((1 <<< bit_count pf.green_max) - 1)
  let b := (pixel >>> pf.blue_shift) &&& ((1 <<< bit_count pf.blue_max) - 1)
  (r * 255 / pf.red_max, g * 255 / pf.green_max, b * 255 / pf.blue_max)

/-- The 16-bpp decoding described by the specification words: read the word
respecting the big_endian flag, mask each shifted channel with the channel
max, scale by `255 / max`. Stated separately so the two can be compared. -/
def spec_decode_pixel16 (pf : PixelFormat) (b0 b1 : Byte) : Rgb :=
  let pixel := if pf.big_endian then b0 * 256 + b1 else b1 * 256 + b0
  let r := (pixel >>> pf.red_shift) &&& pf.red_max
  let g := (pixel >>> pf.green_shift) &&& pf.green_max
  let b := (pixel >>> pf.blue_shift) &&& pf.blue_max
  (r * 255 / pf.red_max, g * 255 / pf.green_max, b * 255 / pf.blue_max)

/-- A little-endian RGB565 server pixel format. -/
def rgb565LE : PixelFormat :=
  ⟨16, 16, false, true, 31, 63, 31, 11, 5, 0⟩

/-- `_read_pixel` (lines 1239-1263): read one pixel of `bytesPerPixel` bytes
from the stream. 32-bpp takes bytes as B, G, R, pad; 24-bpp as B, G, R;
16-bpp uses the shared formula; anything else yields black. -/
def read_pixel (pf : PixelFormat) (bytesPerPixel : Nat) (s : List Byte) :
    Except String (Rgb × List Byte) :=
  match recv_exact (bytesPerPixel : Int) s with
  | .error e => .error e
  | .ok (data, rest) =>
      match data with
      | [b, g, r, _] => .ok ((r, g, b), rest)
      | [b, g, r] => .ok ((r, g, b), rest)
      | [hi, lo] => .ok (decode_pixel16 pf hi lo, rest)
      | _ => .ok ((0, 0, 0), rest)

theorem bit_count_zero : bit_count 0 = 0 := by
  rw [bit_count]
  simp

/-- `_bit_count` of an all-ones mask `2^k - 1` is `k`. -/
theorem bit_count_two_pow_sub_one (k : Nat) : bit_count (2 ^ k - 1) = k := by
  induction k with
  | zero => simpa using bit_count_zero
  | succ m ih =>
      have h1 : (1 : Nat) ≤ 2 ^ m := Nat.one_le_two_pow
      have h2 : 2 ^ (m + 1) - 1 = 2 * (2 ^ m - 1) + 1 := by
        rw [pow_succ]
        omega
      rw [h2]
      have hne : 2 * (2 ^ m - 1) + 1 ≠ 0 := by omega
      have hdiv : (2 * (2 ^ m - 1) + 1) / 2 = 2 ^ m - 1 := by omega
      conv_lhs => rw [bit_count]
      rw [if_neg hne, hdiv, ih]

/-- Counterexample to C8: with a little-endian RGB565 pixel format and wire
bytes 0x00 0x1F, the code decodes (0, 0, 255) — it reads the word as
big-endian 0x001F — while reading the word as the flag directs would give
(24, 226, 0). The big_endian flag is ignored. -/
theorem pixel16_endianness_counterexample :
    decode_pixel16 rgb565LE 0 31 = (0, 0, 255)
      ∧ spec_decode_pixel16 rgb565LE 0 31 = (24, 226, 0)
      ∧ decode_pixel16 rgb565LE 0 31 ≠ spec_decode_pixel16 rgb565LE 0 31 := by
  have h31 : bit_count 31 = 5 := by
    have h := bit_count_two_pow_sub_one 5
    norm_num at h
    exact h
  have h63 : bit_count 63 = 6 := by
    have h := bit_count_two_pow_sub_one 6
    norm_num at h
    exact h
  refine ⟨?_, ?_, ?_⟩ <;>
    simp [decode_pixel16, spec_decode_pixel16, rgb565LE, h31, h63] <;> decide

/-- C8 amended: the 16-bit word is always read in network order (struct !H),
regardless of the big_endian flag of the PixelFormat; under the true-color
invariant (each channel max of the form `2^k - 1`, k ≥ 1) each channel is
extracted by shifting by the channel shift and masking with the channel max,
and scaled to 8 bits as `component * 255 / channel_max` (floor division). -/
theorem pixel16_decode_big_endian (pf : PixelFormat) (hi lo : Byte)
    (kr kg kb : Nat) (hk : 0 < kr ∧ 0 < kg ∧ 0 < kb)
    (hr : pf.red_max = 2 ^ kr - 1) (hg : pf.green_max = 2 ^ kg - 1)
    (hb : pf.blue_max = 2 ^ kb - 1) :
    decode_pixel16 pf hi lo
      = ((((hi * 256 + lo) >>> pf.red_shift) &&& pf.red_max) * 255 / pf.red_max,
         (((hi * 256 + lo) >>> pf.green_shift) &&& pf.green_max) * 255 / pf.green_max,
         (((hi * 256 + lo) >>> pf.blue_shift) &&& pf.blue_max) * 255 / pf.blue_max) := by
  have hmr : (1 <<< bit_count pf.red_max) - 1 = pf.red_max := by
    rw [hr, bit_count_two_pow_sub_one, Nat.one_shiftLeft]
  have hmg : (1 <<< bit_count pf.green_max) - 1 = pf.green_max := by
    rw [hg, bit_count_two_pow_sub_one, Nat.one_shiftLeft]
  have hmb : (1 <<< bit_count pf.blue_max) - 1 = pf.blue_max := by
    rw [hb, bit_count_two_pow_sub_one, Nat.one_shiftLeft]
  simp only [decode_pixel16, hmr, hmg, hmb]

/-- Witness for C8 amended: RGB565 with wire bytes 0x00 0x1F decodes to pure
blue under the always-big-endian formula. -/
theorem pixel16_decode_big_endian_witness :
    decode_pixel16 rgb565LE 0 31 = (0, 0, 255) :=
  (pixel16_decode_big_endian rgb565LE 0 31 5 6 5
      (by norm_num) rfl rfl rfl).trans (by decide)

end VncViewer

namespace VncViewer

/-! ## PIL image model and the rectangle decoders
(`_handle_framebuffer_update` lines 1040-1071, `_handle_raw_rectangle_optimized`
lines 1089-1115, `_create_image_from_32bit_optimized` lines 1117-1152,
`_create_image_from_24bit_optimized` lines 1154-1167, `_create_image_generic`
lines 1169-1193, `_handle_copyrect` lines 1203-1210, `_handle_rre_rectangle`
lines 1212-1237)

A PIL RGB image is a width, a height and a row-major pixel list of length
`width * height`.  `putdata` fills pixels from the top-left corner, leaving
the tail unchanged when fewer pixels are supplied.  `paste` writes the
source image at an offset, silently discarding the part that falls outside
the destination.  `crop` cuts a box, filling the part of the box outside
the image with black.  These are the documented PIL semantics the source
relies on. -/

/-- A PIL RGB image: `Image.new` and friends. -/
structure PilImage where
  width : Nat
  height : Nat
  data : List Rgb
deriving DecidableEq

/-- `Image.new` with a fill colour (black `(0,0,0)` unless given, as in the
RRE background fill). -/
def imageNew (w h : Nat) (color : Rgb) : PilImage :=
  ⟨w, h, List.replicate (w * h) color⟩

/-- `Image.putdata`: replace the leading pixels row by row from the top-left;
extra pixels beyond the image size are dropped, missing ones leave the old
content. -/
def PilImage.putdata (img : PilImage) (pixels : List Rgb) : PilImage :=
  let n := img.width * img.height
  ⟨img.width, img.height, pixels.take n ++ img.data.drop (min pixels.length n)⟩

/-- Read one pixel; `none` outside the image. -/
def PilImage.getPixel (img : PilImage) (i j : Nat) : Option Rgb :=
  if i < img.width ∧ j < img.height then img.data[j * img.width + i]? else none

/-- `Image.paste src (x, y)`: the destination keeps its size; positions inside
the pasted region take the source pixel, the part of the source outside the
destination is discarded. -/
def PilImage.paste (dst : PilImage) (x y : Nat) (src : PilImage) : PilImage :=
  ⟨dst.width, dst.height,
   (List.range (dst.width * dst.height)).map (fun k =>
      let i := k % dst.width
      let j := k / dst.width
      if x ≤ i ∧ i < x + src.width ∧ y ≤ j ∧ j < y + src.height then
        src.data.getD ((j - y) * src.width + (i - x)) (0, 0, 0)
      else
        dst.data.getD k (0, 0, 0))⟩

/-- `Image.crop (sx, sy, sx+w, sy+h)`: a `w × h` cut-out; the part of the box
outside the image reads as black. The result owns its pixels, so pasting a
crop of an image onto the same image cannot corrupt overlapping regions. -/
def PilImage.crop (img : PilImage) (sx sy w h : Nat) : PilImage :=
  ⟨w, h,
   (List.range (w * h)).map (fun k =>
      let i := k % w
      let j := k / w
      if sx + i < img.width ∧ sy + j < img.height then
        img.data.getD ((sy + j) * img.width + (sx + i)) (0, 0, 0)
      else (0, 0, 0))⟩

/-- The pixel loop of `_create_image_from_32bit_optimized` (lines 1138-1149,
identical in both size branches): every full 4-byte group B, G, R, pad gives
the pixel `(r, g, b)`; a trailing group shorter than 4 bytes is skipped. -/
def pixels32 : List Byte → List Rgb
  | b :: g :: r :: _ :: rest => (r, g, b) :: pixels32 rest
  | _ => []

/-- The row loop of `_create_image_from_32bit_optimized` for payloads above
1 MB (lines 1127-1143): slice the payload into rows of `w * 4` bytes and run
the 4-byte group loop on each row; the slice offsets `row * w * 4` become
iterated drops, and the break past the end of the data is the empty slice. -/
def pixels32_rows (pixelData : List Byte) (w : Nat) : Nat → List Rgb
  | 0 => []
  | h + 1 =>
      pixels32 (pixelData.take (w * 4)) ++ pixels32_rows (pixelData.drop (w * 4)) w h

/-- `_create_image_from_32bit_optimized` (lines 1117-1152). -/
def create_image_from_32bit (pixelData : List Byte) (w h : Nat) : PilImage :=
  let pixels :=
    if 1000000 < pixelData.length then pixels32_rows pixelData w h
    else pixels32 pixelData
  (imageNew w h (0, 0, 0)).putdata pixels

/-- The pixel loop of `_create_image_from_24bit_optimized` (lines 1161-1164):
full 3-byte groups B, G, R. -/
def pixels24 : List Byte → List Rgb
  | b :: g :: r :: rest => (r, g, b) :: pixels24 rest
  | _ => []

/-- `_create_image_from_24bit_optimized` (lines 1154-1167). -/
def create_image_from_24bit (pixelData : List Byte) (w h : Nat) : PilImage :=
  (imageNew w h (0, 0, 0)).putdata (pixels24 pixelData)

/-- The 16-bpp pixel loop of `_create_image_generic` (lines 1174-1188): full
2-byte groups through the shared 16-bpp formula. -/
def pixels16 (pf : PixelFormat) : List Byte → List Rgb
  | hi :: lo :: rest => decode_pixel16 pf hi lo :: pixels16 pf rest
  | _ => []

/-- `_create_image_generic` (lines 1169-1193): 16-bpp data decodes through
`pixels16`; any other depth appends one black pixel per `bytesPerPixel`-wide
step (for `bytesPerPixel = 0` the Python range would raise; the model is
never used at 0). -/
def create_image_generic (pf : PixelFormat) (pixelData : List Byte)
    (w h bytesPerPixel : Nat) : PilImage :=
  let pixels :=
    if bytesPerPixel = 2 then pixels16 pf pixelData
    else List.replicate ((pixelData.length + bytesPerPixel - 1) / bytesPerPixel)
      (0, 0, 0)
  (imageNew w h (0, 0, 0)).putdata pixels

/-- `_handle_raw_rectangle_optimized` (lines 1089-1115): bound the payload
size, read it, build the rectangle image per depth, paste at `(x, y)`.
No comparison of the rectangle with the framebuffer bounds appears anywhere
in this path. -/
def handle_raw_rectangle (pf : PixelFormat) (fb : PilImage) (x y w h : Nat)
    (s : List Byte) : Except String (PilImage × List Byte) :=
  let bytesPerPixel := pf.bits_per_pixel / 8
  let dataSize := w * h * bytesPerPixel
  if 50000000 < dataSize then .error "Rectangle too large"
  else
    match recv_exact (dataSize : Int) s with
    | .error e => .error e
    | .ok (pixelData, rest) =>
        let rectImage :=
          if bytesPerPixel = 4 then create_image_from_32bit pixelData w h
          else if bytesPerPixel = 3 then create_image_from_24bit pixelData w h
          else create_image_generic pf pixelData w h bytesPerPixel
        .ok (fb.paste x y rectImage, rest)

/-- The crop-then-paste core of `_handle_copyrect` (lines 1208-1210). -/
def copyrect_pure (fb : PilImage) (x y w h src_x src_y : Nat) : PilImage :=
  fb.paste x y (fb.crop src_x src_y w h)

/-- `_handle_copyrect` (lines 1203-1210): read the 4-byte source position,
crop the source subrectangle, paste it at `(x, y)`. -/
def handle_copyrect (fb : PilImage) (x y w h : Nat) (s : List Byte) :
    Except String (PilImage × List Byte) :=
  match recv_exact 4 s with
  | .error e => .error e
  | .ok ([sxHi, sxLo, syHi, syLo], rest) =>
      .ok (copyrect_pure fb x y w h (sxHi * 256 + sxLo) (syHi * 256 + syLo), rest)
  | .ok _ => .error "struct unpack"

/-- The `putpixel` double loop of `_handle_rre_rectangle` (lines 1232-1235):
write `color` at every position of the subrectangle that lies inside the
image. -/
def fill_subrect (img : PilImage) (color : Rgb) (sx sy sw sh : Nat) : PilImage :=
  ⟨img.width, img.height,
   (List.range (img.width * img.height)).map (fun k =>
      let i := k % img.width
      let j := k / img.width
      if sx ≤ i ∧ i < sx + sw ∧ sy ≤ j ∧ j < sy + sh then color
      else img.data.getD k (0, 0, 0))⟩

/-- The subrectangle loop of `_handle_rre_rectangle` (lines 1226-1235). -/
def handle_rre_subrects (pf : PixelFormat) (bytesPerPixel : Nat) :
    Nat → PilImage → List Byte → Except String (PilImage × List Byte)
  | 0, img, s => .ok (img, s)
  | n + 1, img, s =>
      match read_pixel pf bytesPerPixel s with
      | .error e => .error e
      | .ok (color, s1) =>
          match recv_exact 8 s1 with
          | .error e => .error e
          | .ok ([a, b, c, d, e2, f, g2, h2], s2) =>
              handle_rre_subrects pf bytesPerPixel n
                (fill_subrect img color (a * 256 + b) (c * 256 + d)
                  (e2 * 256 + f) (g2 * 256 + h2)) s2
          | .ok _ => .error "struct unpack"

/-- `_handle_rre_rectangle` (lines 1212-1237): subrectangle count, background
pixel, background-filled rectangle image, subrectangle overdraw, paste. -/
def handle_rre_rectangle (pf : PixelFormat) (fb : PilImage) (x y w h : Nat)
    (s : List Byte) : Except String (PilImage × List Byte) :=
  match recv_exact 4 s with
  | .error e => .error e
  | .ok ([n3, n2, n1, n0], s1) =>
      let numSubrects := ((n3 * 256 + n2) * 256 + n1) * 256 + n0
      let bytesPerPixel := pf.bits_per_pixel / 8
      match read_pixel pf bytesPerPixel s1 with
      | .error e => .error e
      | .ok (bg, s2) =>
          match handle_rre_subrects pf bytesPerPixel numSubrects
              (imageNew w h bg) s2 with
          | .error e => .error e
          | .ok (rectImage, s3) => .ok (fb.paste x y rectImage, s3)
  | .ok _ => .error "struct unpack"

/-- Encoding constant `ENCODING_RAW = 0` (line 56). -/
def ENCODING_RAW : Nat := 0

/-- Encoding constant `ENCODING_COPYRECT = 1` (line 57). -/
def ENCODING_COPYRECT : Nat := 1

/-- Encoding constant `ENCODING_RRE = 2` (line 58). -/
def ENCODING_RRE : Nat := 2

/-- The per-rectangle dispatch of `_handle_framebuffer_update`
(lines 1058-1071): Raw, CopyRect and RRE are decoded; any other encoding
value skips the Raw-equivalent `w * h * bytesPerPixel` bytes when that count
is positive. The 4 encoding bytes are kept as their unsigned value; negative
pseudo-encodings land in the skip branch exactly as in the source. -/
def handle_rectangle (pf : PixelFormat) (fb : PilImage)
    (x y w h encoding : Nat) (s : List Byte) :
    Except String (PilImage × List Byte) :=
  if encoding = ENCODING_RAW then handle_raw_rectangle pf fb x y w h s
  else if encoding = ENCODING_COPYRECT then handle_copyrect fb x y w h s
  else if encoding = ENCODING_RRE then handle_rre_rectangle pf fb x y w h s
  else
    let bytesPerPixel := pf.bits_per_pixel / 8
    let skipSize := w * h * bytesPerPixel
    if 0 < skipSize then
      match recv_exact (skipSize : Int) s with
      | .error e => .error e
      | .ok (_, rest) => .ok (fb, rest)
    else .ok (fb, s)

/-- The rectangle loop of `_handle_framebuffer_update` (lines 1050-1071):
read the 8-byte header and the 4-byte encoding, dispatch, repeat. -/
def handle_rectangles (pf : PixelFormat) :
    Nat → PilImage → List Byte → Except String (PilImage × List Byte)
  | 0, fb, s => .ok (fb, s)
  | n + 1, fb, s =>
      match recv_exact 8 s with
      | .error e => .error e
      | .ok ([xHi, xLo, yHi, yLo, wHi, wLo, hHi, hLo], s1) =>
          match recv_exact 4 s1 with
          | .error e => .error e
          | .ok ([e3, e2, e1, e0], s2) =>
              match handle_rectangle pf fb (xHi * 256 + xLo) (yHi * 256 + yLo)
                  (wHi * 256 + wLo) (hHi * 256 + hLo)
                  (((e3 * 256 + e2) * 256 + e1) * 256 + e0) s2 with
              | .error e => .error e
              | .ok (fb1, s3) => handle_rectangles pf n fb1 s3
          | .ok _ => .error "struct unpack"
      | .ok _ => .error "struct unpack"

/-- The decoding part of `_handle_framebuffer_update` (lines 1040-1071):
skip the padding byte, read the 2-byte rectangle count, run the loop. -/
def handle_framebuffer_update_rects (pf : PixelFormat) (fb : PilImage)
    (s : List Byte) : Except String (PilImage × List Byte) :=
  match recv_exact 1 s with
  | .error e => .error e
  | .ok (_, s1) =>
      match recv_exact 2 s1 with
      | .error e => .error e
      | .ok ([nHi, nLo], s2) => handle_rectangles pf (nHi * 256 + nLo) fb s2
      | .ok _ => .error "struct unpack"

end VncViewer

namespace VncViewer

/-- Row-major index arithmetic: `(j*W + i) % W = i` and `(j*W + i) / W = j`
for `i < W`. -/
theorem index_decomp (W i j : Nat) (hi : i < W) :
    (j * W + i) % W = i ∧ (j * W + i) / W = j := by
  have hW : 0 < W := lt_of_le_of_lt (Nat.zero_le _) hi
  constructor
  · rw [Nat.mul_comm j W, Nat.mul_add_mod]
    exact Nat.mod_eq_of_lt hi
  · rw [Nat.mul_comm j W, Nat.mul_add_div hW, Nat.div_eq_of_lt hi, Nat.add_zero]

/-- Row-major indices stay below the pixel count. -/
theorem index_lt (W H i j : Nat) (hi : i < W) (hj : j < H) :
    j * W + i < W * H := by
  calc j * W + i < j * W + W := by omega
  _ = (j + 1) * W := by ring
  _ ≤ H * W := Nat.mul_le_mul_right W (Nat.succ_le_of_lt hj)
  _ = W * H := Nat.mul_comm H W

/-- The 4-byte group loop yields one pixel per full group. -/
theorem length_pixels32 : ∀ l : List Byte, (pixels32 l).length = l.length / 4
  | [] => by simp [pixels32]
  | [_] => by simp [pixels32]
  | [_, _] => by simp [pixels32]
  | [_, _, _] => by simp [pixels32]
  | _ :: _ :: _ :: _ :: rest => by
      have ih := length_pixels32 rest
      simp only [pixels32, List.length_cons, ih]
      omega

/-- The 4-byte group loop distributes over an append at a group boundary. -/
theorem pixels32_append : ∀ (A B : List Byte), A.length % 4 = 0 →
    pixels32 (A ++ B) = pixels32 A ++ pixels32 B
  | [], _, _ => by simp [pixels32]
  | [_], _, h => by simp at h
  | [_, _], _, h => by simp at h
  | [_, _, _], _, h => by simp at h
  | a :: b :: c :: d :: rest, B, h => by
      have h4 : rest.length % 4 = 0 := by
        simp only [List.length_cons] at h
        omega
      have ih := pixels32_append rest B h4
      simp only [List.cons_append, pixels32]
      rw [List.append_eq, ih]

/-- On a payload of exactly `w * 4 * h` bytes the row loop and the flat loop
agree. -/
theorem pixels32_rows_eq (w : Nat) :
    ∀ (h : Nat) (l : List Byte), l.length = w * 4 * h →
      pixels32_rows l w h = pixels32 l := by
  intro h
  induction h with
  | zero =>
      intro l hl
      have : l = [] := List.eq_nil_of_length_eq_zero (by omega)
      simp [this, pixels32_rows, pixels32]
  | succ m ih =>
      intro l hl
      have hlen : w * 4 ≤ l.length := by
        have : w * 4 * (m + 1) = w * 4 * m + w * 4 := by ring
        omega
      have htl : (l.take (w * 4)).length = w * 4 := by
        simp [List.length_take]
        omega
      have hdl : (l.drop (w * 4)).length = w * 4 * m := by
        simp [List.length_drop]
        have : w * 4 * (m + 1) = w * 4 * m + w * 4 := by ring
        omega
      have hsplit : l = l.take (w * 4) ++ l.drop (w * 4) :=
        (List.take_append_drop (w * 4) l).symm
      simp only [pixels32_rows]
      rw [ih (l.drop (w * 4)) hdl]
      conv_rhs => rw [hsplit]
      rw [pixels32_append _ _ (by rw [htl]; omega)]

/-- Value of the 4-byte group loop at index `n`: the bytes at offsets
`4n .. 4n+3` give `(byte (4n+2), byte (4n+1), byte 4n)`. -/
theorem pixels32_getElem? : ∀ (l : List Byte) (n : Nat), 4 * n + 3 < l.length →
    (pixels32 l)[n]? = some (l.getD (4 * n + 2) 0, l.getD (4 * n + 1) 0,
      l.getD (4 * n) 0)
  | b :: g :: r :: p :: rest, 0, _ => by
      simp [pixels32]
  | b :: g :: r :: p :: rest, n + 1, hn => by
      have hn' : 4 * n + 3 < rest.length := by
        simp only [List.length_cons] at hn
        omega
      have ih := pixels32_getElem? rest n hn'
      have e1 : 4 * (n + 1) + 2 = 4 * n + 2 + 1 + 1 + 1 + 1 := by ring
      have e2 : 4 * (n + 1) + 1 = 4 * n + 1 + 1 + 1 + 1 + 1 := by ring
      have e3 : 4 * (n + 1) = 4 * n + 1 + 1 + 1 + 1 := by ring
      rw [e1, e2, e3]
      simp only [pixels32, List.getD_cons_succ, List.getElem?_cons_succ]
      exact ih
  | [], n, hn => by
      simp only [List.length_nil] at hn
      omega
  | [_], n, hn => by
      simp only [List.length_cons, List.length_nil] at hn
      omega
  | [_, _], n, hn => by
      simp only [List.length_cons, List.length_nil] at hn
      omega
  | [_, _, _], n, hn => by
      simp only [List.length_cons, List.length_nil] at hn
      omega

/-- A read of exactly the leading segment of the stream succeeds and leaves
the tail. -/
theorem recv_exact_append (data rest : List Byte)
    (hsize : data.length ≤ 50000000) :
    recv_exact (data.length : Int) (data ++ rest) = .ok (data, rest) := by
  rcases Nat.eq_zero_or_pos data.length with h0 | hpos
  · have hnil : data = [] := List.eq_nil_of_length_eq_zero h0
    subst hnil
    simp [recv_exact]
  · have h1 : ¬ ((data.length : Int) ≤ 0) := by
      omega
    have h2 : ¬ ((50000000 : Int) < (data.length : Int)) := by
      omega
    have h3 : (data.length : Int).toNat = data.length := Int.toNat_natCast _
    have h4 : ¬ ((data ++ rest).length < (data.length : Int).toNat) := by
      rw [h3, List.length_append]
      omega
    rw [recv_exact, if_neg h1, if_neg h2, if_neg h4, h3,
      List.take_left, List.drop_left]

/-- On a payload of exactly `w * h * 4` bytes,
`_create_image_from_32bit_optimized` builds the `w × h` image whose pixel
list is the 4-byte group loop of the whole payload — the over-1MB row path
and the flat path coincide there. -/
theorem create32_data (l : List Byte) (w h : Nat) (hl : l.length = w * h * 4) :
    create_image_from_32bit l w h = ⟨w, h, pixels32 l⟩ := by
  have hflat : (if 1000000 < l.length then pixels32_rows l w h else pixels32 l)
      = pixels32 l := by
    split
    · exact pixels32_rows_eq w h l (by rw [hl]; ring)
    · rfl
  have hplen : (pixels32 l).length = w * h := by
    rw [length_pixels32, hl]
    omega
  show (imageNew w h (0, 0, 0)).putdata _ = _
  rw [hflat]
  unfold imageNew PilImage.putdata
  simp only [hplen, Nat.min_self, List.drop_replicate, Nat.sub_self,
    List.replicate_zero, List.append_nil]
  rw [List.take_of_length_le hplen.le]

/-- On a stream starting with its exact `w * h * 4`-byte payload, the Raw
handler at 32 bpp consumes the payload and pastes the decoded `w × h`
rectangle at `(x, y)` — with no bounds check of any kind. -/
theorem handle_raw32_eq (pf : PixelFormat) (fb : PilImage) (x y w h : Nat)
    (payload rest : List Byte) (hpf : pf.bits_per_pixel = 32)
    (hlen : payload.length = w * h * 4) (hsize : w * h * 4 ≤ 50000000) :
    handle_raw_rectangle pf fb x y w h (payload ++ rest)
      = .ok (fb.paste x y ⟨w, h, pixels32 payload⟩, rest) := by
  unfold handle_raw_rectangle
  rw [hpf]
  have hbpp : (32 : Nat) / 8 = 4 := by norm_num
  rw [hbpp]
  rw [if_neg (by omega)]
  rw [show ((w * h * 4 : Nat) : Int) = ((payload.length : Nat) : Int) by rw [hlen]]
  rw [recv_exact_append payload rest (by omega)]
  dsimp only
  rw [create32_data payload w h hlen]
  norm_num

end VncViewer

namespace VncViewer

/-- Pixel of a pasted image inside the pasted region (and inside the
destination): the source pixel. -/
theorem getPixel_paste (dst src : PilImage) (x y i j : Nat)
    (hi : i < src.width) (hj : j < src.height)
    (hx : x + i < dst.width) (hy : y + j < dst.height) :
    (dst.paste x y src).getPixel (x + i) (y + j)
      = some (src.data.getD (j * src.width + i) (0, 0, 0)) := by
  have hd := index_decomp dst.width (x + i) (y + j) hx
  have hk := index_lt dst.width dst.height (x + i) (y + j) hx hy
  simp only [PilImage.paste, PilImage.getPixel]
  rw [if_pos ⟨hx, hy⟩]
  rw [List.getElem?_map, List.getElem?_range hk]
  simp only [Option.map_some']
  rw [hd.1, hd.2]
  rw [if_pos ⟨Nat.le_add_right x i, by omega, Nat.le_add_right y j, by omega⟩]
  have e1 : y + j - y = j := by omega
  have e2 : x + i - x = i := by omega
  rw [e1, e2]

/-- Pixel of a crop: the source pixel shifted by the crop origin, black when
the box sticks out of the image. -/
theorem crop_getElem? (img : PilImage) (sx sy w h i j : Nat)
    (hi : i < w) (hj : j < h) :
    (img.crop sx sy w h).data[j * w + i]?
      = some (if sx + i < img.width ∧ sy + j < img.height
          then img.data.getD ((sy + j) * img.width + (sx + i)) (0, 0, 0)
          else (0, 0, 0)) := by
  have hd := index_decomp w i j hi
  have hk := index_lt w h i j hi hj
  simp only [PilImage.crop]
  rw [List.getElem?_map, List.getElem?_range hk]
  simp only [Option.map_some']
  rw [hd.1, hd.2]

/-- Pasting a crop of an image onto itself at the crop origin changes
nothing: the crop is an owned copy and every region pixel is rewritten with
its own value. -/
theorem copyrect_self (fb : PilImage) (x y w h : Nat)
    (hwf : fb.data.length = fb.width * fb.height) :
    copyrect_pure fb x y w h x y = fb := by
  obtain ⟨W, H, data⟩ := fb
  simp only at hwf
  unfold copyrect_pure
  simp only [PilImage.paste, PilImage.crop]
  refine congrArg (PilImage.mk W H) ?_
  apply List.ext_getElem?
  intro k
  by_cases hk : k < W * H
  · have hW : 0 < W := by
      rcases Nat.eq_zero_or_pos W with h0 | h0
      · subst h0
        simp at hk
      · exact h0
    have hiW : k % W < W := Nat.mod_lt _ hW
    have hjH : k / W < H := by
      rw [Nat.div_lt_iff_lt_mul hW]
      rw [Nat.mul_comm]
      exact hk
    have hdk : data[k]? = some (data.getD k (0, 0, 0)) := by
      have hkd : k < data.length := by rw [hwf]; exact hk
      rw [List.getElem?_eq_getElem hkd, List.getD_eq_getElem?_getD,
        List.getElem?_eq_getElem hkd]
      rfl
    rw [List.getElem?_map, List.getElem?_range hk]
    simp only [Option.map_some']
    rw [hdk]
    congr 1
    split
    · rename_i hreg
      obtain ⟨hx1, hx2, hy1, hy2⟩ := hreg
      have hix : k % W - x < w := by omega
      have hjy : k / W - y < h := by omega
      have hkc := index_lt w h (k % W - x) (k / W - y) hix hjy
      have hdc := index_decomp w (k % W - x) (k / W - y) hix
      rw [List.getD_eq_getElem?_getD, List.getElem?_map, List.getElem?_range hkc]
      simp only [Option.map_some', Option.getD_some]
      rw [hdc.1, hdc.2]
      have ex : x + (k % W - x) = k % W := by omega
      have ey : y + (k / W - y) = k / W := by omega
      rw [ex, ey]
      rw [if_pos ⟨hiW, hjH⟩]
      rw [show k / W * W + k % W = k from by
        rw [Nat.mul_comm]
        exact Nat.div_add_mod k W]
    · rfl
  · have hlen1 : ((List.range (W * H)).map
        (fun k =>
          if x ≤ k % W ∧ k % W < x + w ∧ y ≤ k / W ∧ k / W < y + h then
            (((List.range (w * h)).map (fun kc =>
              if x + kc % w < W ∧ y + kc / w < H then
                data.getD ((y + kc / w) * W + (x + kc % w)) (0, 0, 0)
              else (0, 0, 0))).getD ((k / W - y) * w + (k % W - x)) (0, 0, 0))
          else data.getD k (0, 0, 0))).length = W * H := by
      simp
    rw [List.getElem?_eq_none, List.getElem?_eq_none]
    · rw [hwf]
      omega
    · rw [hlen1]
      omega

end VncViewer

namespace VncViewer

/-- A 32-bpp BGRA little-endian pixel format (the common ServerInit). -/
def pf32ex : PixelFormat :=
  ⟨32, 24, false, true, 255, 255, 255, 16, 8, 0⟩

/-- C2: decoding a Raw rectangle at 32 bpp interprets every 4-byte group of
the payload as B, G, R, pad (pad ignored) and writes the resulting pixels
into the BackBuffer at offset `(x, y)` row by row: the handler consumes the
`w * h * 4`-byte payload and pastes the decoded rectangle, and each
in-bounds destination pixel `(x+i, y+j)` holds the bytes of group
`j * w + i` as `(R, G, B)`; in particular the golden frame — one rect
`x=0 y=0 w=2 h=1` enc=0 with payload FF 00 00 00 00 FF 00 00 on a 2 x 1
black BackBuffer — produces `[(0,0,255), (0,255,0)]`. -/
theorem raw32_decode_correct (pf : PixelFormat) (fb : PilImage)
    (x y w h : Nat) (payload rest : List Byte)
    (hpf : pf.bits_per_pixel = 32) (hlen : payload.length = w * h * 4)
    (hsize : w * h * 4 ≤ 50000000) :
    handle_raw_rectangle pf fb x y w h (payload ++ rest)
        = .ok (fb.paste x y ⟨w, h, pixels32 payload⟩, rest)
      ∧ (∀ i j, i < w → j < h → x + i < fb.width → y + j < fb.height →
          (fb.paste x y (⟨w, h, pixels32 payload⟩ : PilImage)).getPixel
              (x + i) (y + j)
            = some (payload.getD (4 * (j * w + i) + 2) 0,
                payload.getD (4 * (j * w + i) + 1) 0,
                payload.getD (4 * (j * w + i)) 0))
      ∧ handle_framebuffer_update_rects pf32ex (imageNew 2 1 (0, 0, 0))
          [0, 0, 1, 0, 0, 0, 0, 0, 2, 0, 1, 0, 0, 0, 0,
            255, 0, 0, 0, 0, 255, 0, 0]
          = .ok (⟨2, 1, [(0, 0, 255), (0, 255, 0)]⟩, []) := by
  refine ⟨handle_raw32_eq pf fb x y w h payload rest hpf hlen hsize, ?_, by rfl⟩
  intro i j hi hj hx hy
  rw [getPixel_paste fb ⟨w, h, pixels32 payload⟩ x y i j hi hj hx hy]
  have hlt : 4 * (j * w + i) + 3 < payload.length := by
    rw [hlen]
    have := index_lt w h i j hi hj
    omega
  have hget := pixels32_getElem? payload (j * w + i) hlt
  show some ((pixels32 payload).getD (j * w + i) (0, 0, 0)) = _
  rw [List.getD_eq_getElem?_getD, hget]
  rfl

/-- Witness for C2: the golden rectangle through the Raw handler itself —
payload FF 00 00 00 00 FF 00 00 at `(0,0)` of a 2 x 1 black buffer; the
pixel at `(0, 0)` reads back as `(0, 0, 255)`. -/
theorem raw32_decode_correct_witness :
    handle_raw_rectangle pf32ex (imageNew 2 1 (0, 0, 0)) 0 0 2 1
        ([255, 0, 0, 0, 0, 255, 0, 0] ++ [])
        = .ok ((imageNew 2 1 (0, 0, 0)).paste 0 0
            ⟨2, 1, pixels32 [255, 0, 0, 0, 0, 255, 0, 0]⟩, [])
      ∧ ((imageNew 2 1 (0, 0, 0)).paste 0 0
          (⟨2, 1, pixels32 [255, 0, 0, 0, 0, 255, 0, 0]⟩ : PilImage)).getPixel
            0 0 = some (0, 0, 255) := by
  have h := raw32_decode_correct pf32ex (imageNew 2 1 (0, 0, 0)) 0 0 2 1
    [255, 0, 0, 0, 0, 255, 0, 0] [] rfl (by norm_num) (by norm_num)
  refine ⟨h.1, ?_⟩
  have h2 := h.2.1 0 0 (by norm_num) (by norm_num) (by decide) (by decide)
  simpa using h2

end VncViewer

namespace VncViewer

/-- C3: `_handle_copyrect` copies through an owned crop, so for every
CopyRect rectangle whose source lies inside the BackBuffer, each destination
pixel of the result equals the corresponding source pixel of the BackBuffer
as it was before the operation — overlap cannot corrupt data; CopyRect of a
region onto itself leaves the BackBuffer unchanged; and on the 1 x 4 buffer
[A, B, C, D], the rectangle `x=1 y=0 w=3 h=1` with `src=(0,0)` yields
[A, A, B, C]. -/
theorem copyrect_preserves_source (fb : PilImage) (x y w h sx sy : Nat)
    (hwf : fb.data.length = fb.width * fb.height)
    (hsx : sx + w ≤ fb.width) (hsy : sy + h ≤ fb.height) :
    (∀ i j, i < w → j < h → x + i < fb.width → y + j < fb.height →
        (copyrect_pure fb x y w h sx sy).getPixel (x + i) (y + j)
          = fb.getPixel (sx + i) (sy + j))
      ∧ copyrect_pure fb x y w h x y = fb
      ∧ handle_copyrect
          ⟨4, 1, [(10, 10, 10), (20, 20, 20), (30, 30, 30), (40, 40, 40)]⟩
          1 0 3 1 [0, 0, 0, 0]
          = .ok
            (⟨4, 1, [(10, 10, 10), (10, 10, 10), (20, 20, 20), (30, 30, 30)]⟩,
              []) := by
  refine ⟨?_, copyrect_self fb x y w h hwf, by rfl⟩
  intro i j hi hj hx hy
  unfold copyrect_pure
  rw [getPixel_paste fb (fb.crop sx sy w h) x y i j hi hj hx hy]
  have hc := crop_getElem? fb sx sy w h i j hi hj
  show some ((fb.crop sx sy w h).data.getD (j * w + i) (0, 0, 0)) = _
  rw [List.getD_eq_getElem?_getD, hc]
  simp only [Option.getD_some]
  have hcin : sx + i < fb.width ∧ sy + j < fb.height := ⟨by omega, by omega⟩
  rw [if_pos hcin]
  unfold PilImage.getPixel
  rw [if_pos hcin]
  have hidx : (sy + j) * fb.width + (sx + i) < fb.data.length := by
    rw [hwf]
    exact index_lt _ _ _ _ hcin.1 hcin.2
  rw [List.getD_eq_getElem?_getD, List.getElem?_eq_getElem hidx]
  rfl

/-- Witness for C3: on the 1 x 4 buffer [A, B, C, D] with the overlap
rectangle `x=1 w=3 src=(0,0)`, the destination pixel at `(1, 0)` equals the
old source pixel at `(0, 0)`, and the self-copy at `(1, 0)` is the identity. -/
theorem copyrect_preserves_source_witness :
    (copyrect_pure
        ⟨4, 1, [(10, 10, 10), (20, 20, 20), (30, 30, 30), (40, 40, 40)]⟩
        1 0 3 1 0 0).getPixel 1 0
      = some (10, 10, 10)
    ∧ copyrect_pure
        ⟨4, 1, [(10, 10, 10), (20, 20, 20), (30, 30, 30), (40, 40, 40)]⟩
        1 0 3 1 1 0
      = ⟨4, 1, [(10, 10, 10), (20, 20, 20), (30, 30, 30), (40, 40, 40)]⟩ := by
  have h := copyrect_preserves_source
    ⟨4, 1, [(10, 10, 10), (20, 20, 20), (30, 30, 30), (40, 40, 40)]⟩
    1 0 3 1 0 0 (by decide) (by decide) (by decide)
  constructor
  · have h1 := h.1 0 0 (by decide) (by decide) (by decide) (by decide)
    simpa using h1
  · exact h.2.1

end VncViewer

namespace VncViewer

/-- Counterexample to C5: a Raw rectangle with `x + w > width` does NOT make
decoding raise a protocol error. On a 1 x 1 BackBuffer, the frame carrying
one rect `x=0 y=0 w=2 h=1` (so `x + w = 2 > 1 = width`) decodes successfully:
the 8-byte payload is consumed and the rectangle is silently clipped, the
out-of-bounds pixel discarded. No bounds check exists anywhere in
`_handle_framebuffer_update` or the rectangle handlers. -/
theorem rect_bounds_unchecked_counterexample :
    handle_framebuffer_update_rects pf32ex (imageNew 1 1 (0, 0, 0))
        [0, 0, 1, 0, 0, 0, 0, 0, 2, 0, 1, 0, 0, 0, 0,
          255, 0, 0, 0, 0, 255, 0, 0]
        = .ok (⟨1, 1, [(0, 0, 255)]⟩, [])
      ∧ (handle_framebuffer_update_rects pf32ex (imageNew 1 1 (0, 0, 0))
          [0, 0, 1, 0, 0, 0, 0, 0, 2, 0, 1, 0, 0, 0, 0,
            255, 0, 0, 0, 0, 255, 0, 0]).isOk = true := by
  exact ⟨by rfl, by rfl⟩

/-- C5 amended: the decoder performs no bounds check. A Raw rectangle with
`x + w > width` or `y + h > height` is decoded without any protocol error:
its full payload is consumed, the decoded rectangle is pasted with PIL
clipping semantics, the BackBuffer keeps its dimensions, and no pixel
outside the BackBuffer exists afterwards (writes are confined by clipping,
not by validation). -/
theorem rect_out_of_bounds_clipped (pf : PixelFormat) (fb : PilImage)
    (x y w h : Nat) (payload rest : List Byte)
    (hpf : pf.bits_per_pixel = 32) (hlen : payload.length = w * h * 4)
    (hsize : w * h * 4 ≤ 50000000)
    (hoob : fb.width < x + w ∨ fb.height < y + h) :
    handle_raw_rectangle pf fb x y w h (payload ++ rest)
        = .ok (fb.paste x y ⟨w, h, pixels32 payload⟩, rest)
      ∧ (fb.paste x y (⟨w, h, pixels32 payload⟩ : PilImage)).width = fb.width
      ∧ (fb.paste x y (⟨w, h, pixels32 payload⟩ : PilImage)).height = fb.height
      ∧ (∀ i j, fb.width ≤ i ∨ fb.height ≤ j →
          (fb.paste x y (⟨w, h, pixels32 payload⟩ : PilImage)).getPixel i j
            = none) := by
  refine ⟨handle_raw32_eq pf fb x y w h payload rest hpf hlen hsize,
    rfl, rfl, ?_⟩
  intro i j hij
  unfold PilImage.paste PilImage.getPixel
  rw [if_neg]
  simp only
  omega

/-- Witness for C5 amended: the out-of-bounds rectangle `w=2 h=1` on the
1 x 1 buffer goes through the Raw handler without error. -/
theorem rect_out_of_bounds_clipped_witness :
    handle_raw_rectangle pf32ex (imageNew 1 1 (0, 0, 0)) 0 0 2 1
        ([255, 0, 0, 0, 0, 255, 0, 0] ++ [])
        = .ok ((imageNew 1 1 (0, 0, 0)).paste 0 0
            ⟨2, 1, pixels32 [255, 0, 0, 0, 0, 255, 0, 0]⟩, [])
      ∧ ((imageNew 1 1 (0, 0, 0)).paste 0 0
          (⟨2, 1, pixels32 [255, 0, 0, 0, 0, 255, 0, 0]⟩ : PilImage)).getPixel
            1 0 = none := by
  have h := rect_out_of_bounds_clipped pf32ex (imageNew 1 1 (0, 0, 0)) 0 0 2 1
    [255, 0, 0, 0, 0, 255, 0, 0] [] rfl (by norm_num) (by norm_num)
    (Or.inl (by decide))
  exact ⟨h.1, h.2.2.2 1 0 (Or.inl (by decide))⟩

end VncViewer

namespace VncViewer

/-! ## Update-request budget
(`__init__` lines 97-101, `_request_framebuffer_update` lines 822-874,
`_handle_framebuffer_update` lines 1026-1044, disconnect cleanup line 1498)

The counter fields live on the frame object; wall-clock instants and the
float intervals are modelled as `ℚ` (they are only assigned, compared,
and scaled — no float rounding is load-bearing).  The transport-level
socket checks of `_request_framebuffer_update` are outside the model; a
request observes the throttle, the pending cap and the stall check exactly
in source order. -/

/-- The budget fields of `VNCViewerFrame`. -/
structure UpdateBudget where
  connected : Bool
  pending_update_requests : Int
  max_pending_requests : Int
  last_update_request_time : ℚ
  update_request_interval : ℚ
  last_server_response_time : ℚ
  server_response_timeout : ℚ
deriving DecidableEq

/-- The `__init__` values (lines 90-101): no pending requests, cap 3,
interval 0.033 s, stall threshold 2 s; `last_server_response_time` starts at
the construction instant `t0`. -/
def initUpdateBudget (t0 : ℚ) : UpdateBudget :=
  ⟨false, 0, 3, 0, 33/1000, t0, 2⟩

/-- `_request_framebuffer_update` (lines 822-874): drop the request unless
connected; drop it inside the throttle window; drop it at the pending cap;
otherwise stretch the interval when the server has been silent beyond the
stall threshold, then send — incrementing the pending counter and stamping
the request time. The returned flag tells whether a request went out. -/
def request_framebuffer_update (now : ℚ) (st : UpdateBudget) :
    UpdateBudget × Bool :=
  if ¬ st.connected then (st, false)
  else if now - st.last_update_request_time < st.update_request_interval then
    (st, false)
  else if st.max_pending_requests ≤ st.pending_update_requests then (st, false)
  else
    let stretched := min (st.update_request_interval * (3/2)) 1
    let st1 :=
      if st.server_response_timeout < now - st.last_server_response_time then
        { st with update_request_interval := stretched }
      else st
    ({ st1 with
        pending_update_requests := st1.pending_update_requests + 1
        last_update_request_time := now }, true)

/-- The budget bookkeeping at the head of `_handle_framebuffer_update`
(lines 1029-1038): stamp the response time, decrement the pending counter
saturating at zero, and relax the interval back towards 0.033 s. -/
def handle_update_budget (now : ℚ) (st : UpdateBudget) : UpdateBudget :=
  let st1 := { st with
      last_server_response_time := now
      pending_update_requests := max 0 (st.pending_update_requests - 1) }
  let relaxed := max (st1.update_request_interval * (9/10)) (33/1000)
  if 33/1000 < st1.update_request_interval then
    { st1 with update_request_interval := relaxed }
  else st1

/-- The disconnect cleanup (line 1498) zeroes the pending counter. -/
def reset_pending (st : UpdateBudget) : UpdateBudget :=
  { st with pending_update_requests := 0 }

/-- Connection-flag flips around connect and disconnect. -/
def set_connected (b : Bool) (st : UpdateBudget) : UpdateBudget :=
  { st with connected := b }

/-- The budget events of a session. -/
inductive BudgetOp where
  | request : ℚ → BudgetOp
  | receive : ℚ → BudgetOp
  | disconnectReset : BudgetOp
  | setConn : Bool → BudgetOp

/-- One budget event. -/
def budget_step (op : BudgetOp) (st : UpdateBudget) : UpdateBudget :=
  match op with
  | .request now => (request_framebuffer_update now st).1
  | .receive now => handle_update_budget now st
  | .disconnectReset => reset_pending st
  | .setConn b => set_connected b st

/-- A session trace of budget events. -/
def run_budget (ops : List BudgetOp) (st : UpdateBudget) : UpdateBudget :=
  ops.foldl (fun s op => budget_step op s) st

/-- The budget invariant: the pending counter stays within `[0, max]`. -/
def BudgetInv (st : UpdateBudget) : Prop :=
  0 ≤ st.pending_update_requests
    ∧ st.pending_update_requests ≤ st.max_pending_requests
    ∧ 0 ≤ st.max_pending_requests

/-- Every budget event preserves the invariant. -/
theorem budget_step_inv (op : BudgetOp) (st : UpdateBudget)
    (h : BudgetInv st) : BudgetInv (budget_step op st) := by
  obtain ⟨h1, h2, h3⟩ := h
  cases op with
  | request now =>
      simp only [budget_step, request_framebuffer_update]
      split_ifs <;> refine ⟨?_, ?_, ?_⟩ <;>
        first
          | omega
          | (simp <;> omega)
  | receive now =>
      simp only [budget_step, handle_update_budget]
      split_ifs <;> refine ⟨?_, ?_, ?_⟩ <;>
        first
          | omega
          | (simp <;> omega)
  | disconnectReset =>
      exact ⟨le_refl 0, h3, h3⟩
  | setConn b =>
      exact ⟨h1, h2, h3⟩

/-- The invariant holds along every trace from the initial state. -/
theorem run_budget_inv (ops : List BudgetOp) (st : UpdateBudget)
    (h : BudgetInv st) : BudgetInv (run_budget ops st) := by
  induction ops generalizing st with
  | nil => simpa [run_budget] using h
  | cons op rest ih =>
      rw [run_budget, List.foldl_cons]
      exact ih _ (budget_step_inv op st h)

/-- C4: along every session trace, `0 ≤ pending_requests ≤ max_pending`;
a sent FramebufferUpdateRequest increments the counter, a request at the
pending cap is suppressed with the state unchanged, and a received
FramebufferUpdate header decrements the counter saturating at zero. -/
theorem pending_requests_invariant (t0 : ℚ) (ops : List BudgetOp) :
    (0 ≤ (run_budget ops (initUpdateBudget t0)).pending_update_requests
      ∧ (run_budget ops (initUpdateBudget t0)).pending_update_requests
          ≤ (run_budget ops (initUpdateBudget t0)).max_pending_requests)
      ∧ (∀ (st : UpdateBudget) (now : ℚ),
          ((request_framebuffer_update now st).2 = true →
            (request_framebuffer_update now st).1.pending_update_requests
              = st.pending_update_requests + 1)
          ∧ (st.max_pending_requests ≤ st.pending_update_requests →
              request_framebuffer_update now st = (st, false))
          ∧ (handle_update_budget now st).pending_update_requests
              = max 0 (st.pending_update_requests - 1)) := by
  constructor
  · have hinit : BudgetInv (initUpdateBudget t0) := by
      refine ⟨le_refl 0, ?_, ?_⟩ <;> norm_num [initUpdateBudget]
    have h := run_budget_inv ops (initUpdateBudget t0) hinit
    exact ⟨h.1, h.2.1⟩
  · intro st now
    refine ⟨?_, ?_, ?_⟩
    · intro hsent
      simp only [request_framebuffer_update] at hsent ⊢
      split_ifs at hsent ⊢ <;> simp_all
    · intro hcap
      simp only [request_framebuffer_update]
      split_ifs <;> rfl
    · simp only [handle_update_budget]
      split_ifs <;> simp

/-- Witness for C4: at the cap (pending = max = 3) a request at time 1 is
suppressed unchanged, and a received header on an empty budget saturates at
zero. -/
theorem pending_requests_invariant_witness :
    request_framebuffer_update 1
        ⟨true, 3, 3, 0, 33/1000, 0, 2⟩
        = (⟨true, 3, 3, 0, 33/1000, 0, 2⟩, false)
      ∧ (handle_update_budget 2
          ⟨true, 0, 3, 0, 33/1000, 0, 2⟩).pending_update_requests = 0 := by
  have h := pending_requests_invariant 0 []
  constructor
  · exact (h.2 ⟨true, 3, 3, 0, 33/1000, 0, 2⟩ 1).2.1 (by norm_num)
  · rw [(h.2 ⟨true, 0, 3, 0, 33/1000, 0, 2⟩ 2).2.2]
    norm_num

end VncViewer
